import Mathlib

/-!
# Verification of `src/backend/src/auth/api_keys.py`

A shallow embedding of the API-key credential module: `generate_api_key`,
`hash_api_key` and `verify_api_key`. Bytes are modelled as `List Nat`
(each element intended `< 256`); strings as Lean `String` with the
character list `String.data` carrying the content.

The cryptographic primitives used by the source (`hashlib.sha256` and
`hashlib.pbkdf2_hmac('sha256', ...)`) are Python standard-library
functions, not code of this repository; they are taken as abstract
function parameters `sha256 : List Nat → List Nat` and
`pbkdf2 : List Nat → List Nat → Nat → List Nat` (password, salt,
iteration count). The random values drawn by `secrets.token_bytes(32)`
and `secrets.token_urlsafe(32)` are likewise passed in explicitly, so
each operation is a pure function of the randomness it consumed.
-/

namespace ApiKeys

/-- The sixteen lowercase hexadecimal digit characters, in value order. -/
def hexChars : List Char := "0123456789abcdef".data

/-- Lowercase hex digit for a nibble (as produced by Python `bytes.hex()`). -/
def toHexDigit (n : Nat) : Char := hexChars.getD (n % 16) '0'

/-- Two lowercase hex digits of one byte, high nibble first. -/
def byteToHex (b : Nat) : List Char := [toHexDigit (b / 16), toHexDigit (b % 16)]

/-- Python `bytes.hex()`: lowercase hex encoding of a byte sequence. -/
def bytesToHexChars : List Nat → List Char
  | [] => []
  | b :: bs => byteToHex b ++ bytesToHexChars bs

/-- `bytes.hex()` packaged as a `String`. -/
def bytesToHex (bs : List Nat) : String := String.mk (bytesToHexChars bs)

/-- Value of a single hex digit character; accepts both cases, as Python
`bytes.fromhex` does. -/
def hexDigitVal? (c : Char) : Option Nat :=
  if '0' ≤ c ∧ c ≤ '9' then some (c.toNat - '0'.toNat)
  else if 'a' ≤ c ∧ c ≤ 'f' then some (c.toNat - 'a'.toNat + 10)
  else if 'A' ≤ c ∧ c ≤ 'F' then some (c.toNat - 'A'.toNat + 10)
  else none

/-- Python `bytes.fromhex`: decodes pairs of hex digits, `none` on an odd
count or a non-hex character (modelling the `ValueError` it raises).
Python additionally skips ASCII spaces between byte pairs; no input
relevant here contains whitespace, so that is not modelled. -/
def bytesFromHexChars? : List Char → Option (List Nat)
  | [] => some []
  | [_] => none
  | c1 :: c2 :: rest =>
    match hexDigitVal? c1, hexDigitVal? c2, bytesFromHexChars? rest with
    | some hi, some lo, some bs => some ((16 * hi + lo) :: bs)
    | _, _, _ => none

/-- `bytes.fromhex` on a `String`. -/
def bytesFromHex? (s : String) : Option (List Nat) := bytesFromHexChars? s.data

/-- UTF-8 encoding of one character (the byte sequence Python
`str.encode()` produces for it). -/
def utf8EncodeChar (c : Char) : List Nat :=
  let n := c.toNat
  if n < 128 then [n]
  else if n < 2048 then [192 + n / 64, 128 + n % 64]
  else if n < 65536 then [224 + n / 4096, 128 + n / 64 % 64, 128 + n % 64]
  else [240 + n / 262144, 128 + n / 4096 % 64, 128 + n / 64 % 64, 128 + n % 64]

/-- UTF-8 encoding of a character list. -/
def utf8Encode : List Char → List Nat
  | [] => []
  | c :: cs => utf8EncodeChar c ++ utf8Encode cs

/-- Python `str.encode()`: UTF-8 bytes of a string. -/
def strEncode (s : String) : List Nat := utf8Encode s.data

/-- Python `s.split('$')` on the character list: splits at every `'$'`,
keeping empty parts, so the result always has one more element than the
number of `'$'` occurrences. -/
def splitDollar : List Char → List (List Char)
  | [] => [[]]
  | c :: cs =>
    if c = '$' then [] :: splitDollar cs
    else
      match splitDollar cs with
      | r :: rs => (c :: r) :: rs
      | [] => [[c]]

/-- The base64url alphabet used by Python `base64.urlsafe_b64encode`. -/
def b64Chars : List Char :=
  "ABCDEFGHIJKLMNOPQRSTUVWXYZabcdefghijklmnopqrstuvwxyz0123456789-_".data

/-- One base64url character for a 6-bit value. -/
def b64Digit (n : Nat) : Char := b64Chars.getD (n % 64) 'A'

/-- Base64url encoding without padding, as `secrets.token_urlsafe`
produces (it strips the `'='` padding). -/
def base64urlChars : List Nat → List Char
  | [] => []
  | [b1] => [b64Digit (b1 / 4), b64Digit (b1 % 4 * 16)]
  | [b1, b2] => [b64Digit (b1 / 4), b64Digit (b1 % 4 * 16 + b2 / 16), b64Digit (b2 % 16 * 4)]
  | b1 :: b2 :: b3 :: rest =>
    b64Digit (b1 / 4) :: b64Digit (b1 % 4 * 16 + b2 / 16) ::
      b64Digit (b2 % 16 * 4 + b3 / 64) :: b64Digit (b3 % 64) :: base64urlChars rest

/-- Python `secrets.token_urlsafe` applied to the random bytes it drew:
base64url text of those bytes, padding stripped. -/
def token_urlsafe (bs : List Nat) : String := String.mk (base64urlChars bs)

/-- `hash_api_key` from `api_keys.py`, with the salt that
`secrets.token_bytes(32)` drew passed explicitly:

    salt = secrets.token_bytes(32)
    hash_value = hashlib.pbkdf2_hmac('sha256', api_key.encode(), salt, 100000)
    return f"{salt.hex()}${hash_value.hex()}"
-/
def hash_api_key (pbkdf2 : List Nat → List Nat → Nat → List Nat)
    (salt : List Nat) (api_key : String) : String :=
  bytesToHex salt ++ "$" ++ bytesToHex (pbkdf2 (strEncode api_key) salt 100000)

/-- `verify_api_key` from `api_keys.py`:

    try:
        salt_hex, stored_hash = hashed_key.split('$')
        salt = bytes.fromhex(salt_hex)
        computed_hash = hashlib.pbkdf2_hmac('sha256', plain_key.encode(), salt, 100000)
        return computed_hash.hex() == stored_hash
    except (ValueError, AttributeError):
        return hashlib.sha256(plain_key.encode()).hexdigest() == hashed_key

The two-variable unpacking raises `ValueError` unless the split has
exactly two parts (one `'$'` in the string); `bytes.fromhex` raises
`ValueError` on invalid hex. Both are caught and routed to the legacy
SHA-256 comparison. Nothing after the `fromhex` call can raise, so the
final hex comparison's result is returned as is. -/
def verify_api_key (sha256 : List Nat → List Nat)
    (pbkdf2 : List Nat → List Nat → Nat → List Nat)
    (plain_key hashed_key : String) : Bool :=
  match splitDollar hashed_key.data with
  | [salt_hex, stored_hash] =>
    match bytesFromHexChars? salt_hex with
    | some salt =>
      bytesToHexChars (pbkdf2 (strEncode plain_key) salt 100000) == stored_hash
    | none => bytesToHexChars (sha256 (strEncode plain_key)) == hashed_key.data
  | _ => bytesToHexChars (sha256 (strEncode plain_key)) == hashed_key.data

/-- `generate_api_key` from `api_keys.py`, with the randomness of
`secrets.token_urlsafe(32)` (the 32 key bytes) and of `hash_api_key`'s
`secrets.token_bytes(32)` (the salt) passed explicitly:

    plain_key = secrets.token_urlsafe(32)
    return plain_key, hash_api_key(plain_key)
-/
def generate_api_key (pbkdf2 : List Nat → List Nat → Nat → List Nat)
    (keyBytes salt : List Nat) : String × String :=
  let plain_key := token_urlsafe keyBytes
  (plain_key, hash_api_key pbkdf2 salt plain_key)

/-- Is `c` one of the sixteen lowercase hex digits (the character class
`[0-9a-f]`)? -/
def isLowerHexDigit (c : Char) : Bool := hexChars.contains c

/-- The stored-verifier shape `^[0-9a-f]\x7b64\x7d\$[0-9a-f]\x7b64\x7d$`:
exactly one `'$'`, with 64 lowercase hex digits on each side. -/
def matchesStoredShape (s : String) : Bool :=
  match splitDollar s.data with
  | [a, b] =>
    a.length == 64 && b.length == 64 && a.all isLowerHexDigit && b.all isLowerHexDigit
  | _ => false

/-- The current-format success condition of `verify_api_key` in
isolation: the stored verifier splits at exactly one `'$'` into two
parts, the salt half decodes as hex, and the digest half equals the
lowercase hex of the PBKDF2 digest of the key under that salt. -/
def currentMatch (pbkdf2 : List Nat → List Nat → Nat → List Nat) (k v : String) : Bool :=
  match splitDollar v.data with
  | [salt_hex, stored_hash] =>
    match bytesFromHexChars? salt_hex with
    | some salt => bytesToHexChars (pbkdf2 (strEncode k) salt 100000) == stored_hash
    | none => false
  | _ => false

/-- Modelled from the spec's description of `verify` (§4.1): split the
stored verifier on `'$'`; if the split gives exactly two parts and both
halves decode as hex, return whether the recomputed PBKDF2 digest's hex
encoding equals the digest half; on any failure (no `'$'`, wrong number
of parts, or either half not valid hex) compare SHA-256(plainKey) hex
against the entire stored string. This differs syntactically from the
code, which never hex-decodes the digest half; the C4 theorem shows the
two functions agree everywhere. -/
def verify_spec (sha256 : List Nat → List Nat)
    (pbkdf2 : List Nat → List Nat → Nat → List Nat)
    (plain_key stored_verifier : String) : Bool :=
  match splitDollar stored_verifier.data with
  | [salt_hex, digest_hex] =>
    match bytesFromHexChars? salt_hex, bytesFromHexChars? digest_hex with
    | some salt, some _ =>
      bytesToHexChars (pbkdf2 (strEncode plain_key) salt 100000) == digest_hex
    | _, _ => bytesToHexChars (sha256 (strEncode plain_key)) == stored_verifier.data
  | _ => bytesToHexChars (sha256 (strEncode plain_key)) == stored_verifier.data

/-! ## Basic lemmas about the hex and split primitives -/

theorem hexDigitVal_toHexDigit (n : Nat) : hexDigitVal? (toHexDigit n) = some (n % 16) := by
  have h : ∀ m, m < 16 → hexDigitVal? (hexChars.getD m '0') = some m := by decide
  exact h (n % 16) (by omega)

theorem isLowerHexDigit_toHexDigit (n : Nat) : isLowerHexDigit (toHexDigit n) = true := by
  have h : ∀ m, m < 16 → isLowerHexDigit (hexChars.getD m '0') = true := by decide
  exact h (n % 16) (by omega)

theorem toHexDigit_ne_dollar (n : Nat) : toHexDigit n ≠ '$' := by
  have h : ∀ m, m < 16 → hexChars.getD m '0' ≠ '$' := by decide
  exact h (n % 16) (by omega)

theorem bytesToHexChars_cons (b : Nat) (bs : List Nat) :
    bytesToHexChars (b :: bs)
      = toHexDigit (b / 16) :: toHexDigit (b % 16) :: bytesToHexChars bs := rfl

theorem bytesToHexChars_no_dollar (bs : List Nat) : ∀ c ∈ bytesToHexChars bs, c ≠ '$' := by
  induction bs with
  | nil => intro c hc; cases hc
  | cons b bs ih =>
    intro c hc
    rw [bytesToHexChars_cons] at hc
    rcases List.mem_cons.mp hc with h | hc
    · exact h ▸ toHexDigit_ne_dollar _
    rcases List.mem_cons.mp hc with h | hc
    · exact h ▸ toHexDigit_ne_dollar _
    exact ih c hc

theorem bytesToHexChars_length (bs : List Nat) :
    (bytesToHexChars bs).length = 2 * bs.length := by
  induction bs with
  | nil => rfl
  | cons b bs ih => simp [bytesToHexChars, byteToHex, ih]; omega

theorem bytesToHexChars_all_hex (bs : List Nat) :
    (bytesToHexChars bs).all isLowerHexDigit = true := by
  induction bs with
  | nil => rfl
  | cons b bs ih =>
    simp only [bytesToHexChars, byteToHex, List.all_append, ih, Bool.and_true, List.all_cons,
      isLowerHexDigit_toHexDigit, List.all_nil, Bool.and_self]

theorem bytesFromHexChars_cons (c1 c2 : Char) (rest : List Char) :
    bytesFromHexChars? (c1 :: c2 :: rest)
      = match hexDigitVal? c1, hexDigitVal? c2, bytesFromHexChars? rest with
        | some hi, some lo, some bs => some ((16 * hi + lo) :: bs)
        | _, _, _ => none := rfl

theorem bytesFromHex_bytesToHex {bs : List Nat} (h : ∀ b ∈ bs, b < 256) :
    bytesFromHexChars? (bytesToHexChars bs) = some bs := by
  induction bs with
  | nil => rfl
  | cons b bs ih =>
    have hb : b < 256 := h b (List.mem_cons_self ..)
    have ih' := ih fun x hx => h x (List.mem_cons_of_mem _ hx)
    have hdiv : b / 16 % 16 = b / 16 := Nat.mod_eq_of_lt (by omega)
    have hmod : b % 16 % 16 = b % 16 := Nat.mod_mod_of_dvd b (dvd_refl 16)
    rw [bytesToHexChars_cons, bytesFromHexChars_cons, hexDigitVal_toHexDigit,
      hexDigitVal_toHexDigit, ih', hdiv, hmod]
    simp only [Option.some.injEq, List.cons.injEq, and_true]
    omega

theorem bytesFromHex_bytesToHex_isSome (bs : List Nat) :
    (bytesFromHexChars? (bytesToHexChars bs)).isSome = true := by
  induction bs with
  | nil => rfl
  | cons b bs ih =>
    rw [bytesToHexChars_cons, bytesFromHexChars_cons, hexDigitVal_toHexDigit,
      hexDigitVal_toHexDigit]
    cases hrest : bytesFromHexChars? (bytesToHexChars bs) with
    | none => rw [hrest] at ih; cases ih
    | some bs' => rfl

theorem bytesToHexChars_inj {bs1 bs2 : List Nat} (h1 : ∀ b ∈ bs1, b < 256)
    (h2 : ∀ b ∈ bs2, b < 256) (h : bytesToHexChars bs1 = bytesToHexChars bs2) :
    bs1 = bs2 := by
  have e1 := bytesFromHex_bytesToHex h1
  rw [h, bytesFromHex_bytesToHex h2] at e1
  exact (Option.some.inj e1).symm

theorem splitDollar_ne_nil (cs : List Char) : splitDollar cs ≠ [] := by
  induction cs with
  | nil => simp [splitDollar]
  | cons c cs ih =>
    by_cases hc : c = '$'
    · simp [splitDollar, hc]
    · simp only [splitDollar, hc, if_false]
      cases hrest : splitDollar cs with
      | nil => simp
      | cons r rs => simp

theorem splitDollar_no_dollar {cs : List Char} (h : ∀ c ∈ cs, c ≠ '$') :
    splitDollar cs = [cs] := by
  induction cs with
  | nil => rfl
  | cons c cs ih =>
    have hc : c ≠ '$' := h c (List.mem_cons_self ..)
    have ih' := ih fun x hx => h x (List.mem_cons_of_mem _ hx)
    simp [splitDollar, hc, ih']

theorem splitDollar_append {a : List Char} (b : List Char) (h : ∀ c ∈ a, c ≠ '$') :
    splitDollar (a ++ '$' :: b) = a :: splitDollar b := by
  induction a with
  | nil => simp [splitDollar]
  | cons c a ih =>
    have hc : c ≠ '$' := h c (List.mem_cons_self ..)
    have ih' := ih fun x hx => h x (List.mem_cons_of_mem _ hx)
    simp [splitDollar, hc, ih']

theorem splitDollar_cons_dollar (cs : List Char) :
    splitDollar ('$' :: cs) = [] :: splitDollar cs := rfl

theorem splitDollar_eq_single {cs x : List Char} (h : splitDollar cs = [x]) : cs = x := by
  induction cs generalizing x with
  | nil =>
    simp only [splitDollar, List.cons.injEq, and_true] at h
    exact h
  | cons c cs ih =>
    by_cases hc : c = '$'
    · subst hc
      rw [splitDollar_cons_dollar] at h
      exact absurd (List.cons.inj h).2 (splitDollar_ne_nil cs)
    · cases hrest : splitDollar cs with
      | nil => exact absurd hrest (splitDollar_ne_nil cs)
      | cons r rs =>
        simp only [splitDollar, if_neg hc, hrest] at h
        obtain ⟨hx, hrs⟩ := List.cons.inj h
        subst hrs
        rw [ih hrest, hx]

theorem splitDollar_eq_pair {cs a b : List Char} (h : splitDollar cs = [a, b]) :
    cs = a ++ '$' :: b := by
  induction cs generalizing a with
  | nil => simp [splitDollar] at h
  | cons c cs ih =>
    by_cases hc : c = '$'
    · subst hc
      rw [splitDollar_cons_dollar] at h
      obtain ⟨ha, hrest⟩ := List.cons.inj h
      rw [← ha, splitDollar_eq_single hrest]; rfl
    · cases hrest : splitDollar cs with
      | nil => exact absurd hrest (splitDollar_ne_nil cs)
      | cons r rs =>
        simp only [splitDollar, if_neg hc, hrest] at h
        obtain ⟨ha, hrs⟩ := List.cons.inj h
        rw [hrs] at hrest
        rw [← ha, ih hrest]; rfl

/-! ## Structural lemmas about `hash_api_key` and `verify_api_key` -/

theorem hash_api_key_data (pbkdf2 : List Nat → List Nat → Nat → List Nat)
    (salt : List Nat) (k : String) :
    (hash_api_key pbkdf2 salt k).data
      = bytesToHexChars salt ++ '$' :: bytesToHexChars (pbkdf2 (strEncode k) salt 100000) := by
  have hd : "$".data = ['$'] := rfl
  simp only [hash_api_key, String.data_append, bytesToHex, hd]
  simp [List.append_assoc]

/-- On a stored verifier containing no `'$'`, `verify_api_key` takes the
legacy branch and compares the SHA-256 hex digest with the whole string. -/
theorem verify_no_dollar (sha256 : List Nat → List Nat)
    (pbkdf2 : List Nat → List Nat → Nat → List Nat) (k v : String)
    (h : ∀ c ∈ v.data, c ≠ '$') :
    verify_api_key sha256 pbkdf2 k v
      = (bytesToHexChars (sha256 (strEncode k)) == v.data) := by
  unfold verify_api_key
  rw [splitDollar_no_dollar h]

/-- Verification succeeds on the output of `hash_api_key` for the same
key and any salt made of genuine bytes. -/
theorem verify_hash_eq_true (sha256 : List Nat → List Nat)
    (pbkdf2 : List Nat → List Nat → Nat → List Nat) (salt : List Nat) (k : String)
    (h : ∀ b ∈ salt, b < 256) :
    verify_api_key sha256 pbkdf2 k (hash_api_key pbkdf2 salt k) = true := by
  unfold verify_api_key
  rw [hash_api_key_data, splitDollar_append _ (bytesToHexChars_no_dollar salt),
    splitDollar_no_dollar (bytesToHexChars_no_dollar _)]
  simp [bytesFromHex_bytesToHex h]

/-- The output of `hash_api_key` has the shape 64 hex chars, `'$'`,
64 hex chars whenever the salt and the derived digest are 32 bytes. -/
theorem matchesStoredShape_hash (pbkdf2 : List Nat → List Nat → Nat → List Nat)
    (salt : List Nat) (k : String) (hs : salt.length = 32)
    (hd : (pbkdf2 (strEncode k) salt 100000).length = 32) :
    matchesStoredShape (hash_api_key pbkdf2 salt k) = true := by
  unfold matchesStoredShape
  rw [hash_api_key_data, splitDollar_append _ (bytesToHexChars_no_dollar salt),
    splitDollar_no_dollar (bytesToHexChars_no_dollar _)]
  simp [bytesToHexChars_length, bytesToHexChars_all_hex, hs, hd]

/-! ## Claim theorems -/

/-- C1: Round-trip — for every plain key `k` (any string) and every
32-byte salt (modelling the salt drawn inside `hash_api_key`), and for
any PBKDF2 and SHA-256 primitives, `verify_api_key` returns `true` on
`k` and the stored verifier `hash_api_key` produced for `k`. -/
theorem C1_round_trip (sha256 : List Nat → List Nat)
    (pbkdf2 : List Nat → List Nat → Nat → List Nat) (salt : List Nat) (k : String)
    (hlen : salt.length = 32) (hbytes : ∀ b ∈ salt, b < 256) :
    verify_api_key sha256 pbkdf2 k (hash_api_key pbkdf2 salt k) = true :=
  verify_hash_eq_true sha256 pbkdf2 salt k hbytes

/-- C1 witness: the round-trip at a concrete key, salt and primitives. -/
theorem C1_round_trip_witness :
    verify_api_key (fun _ => List.replicate 32 2) (fun _ _ _ => List.replicate 32 1) "k"
      (hash_api_key (fun _ _ _ => List.replicate 32 1) (List.replicate 32 0) "k") = true :=
  C1_round_trip _ _ _ _ (by decide) (by decide)

/-- C2: Legacy compatibility — with `legacy` the lowercase hex of
SHA-256(k), `verify_api_key k legacy` is `true`; and for a second key
`k2 ≠ k` whose SHA-256 digest differs (the no-collision hypothesis),
`verify_api_key k2 legacy` is `false`. The SHA-256 outputs are assumed
to be genuine byte sequences. -/
theorem C2_legacy_compat (sha256 : List Nat → List Nat)
    (pbkdf2 : List Nat → List Nat → Nat → List Nat) (k k2 : String)
    (hb : ∀ b ∈ sha256 (strEncode k), b < 256)
    (hb2 : ∀ b ∈ sha256 (strEncode k2), b < 256)
    (hkne : k2 ≠ k)
    (hne : sha256 (strEncode k2) ≠ sha256 (strEncode k)) :
    verify_api_key sha256 pbkdf2 k (bytesToHex (sha256 (strEncode k))) = true ∧
    verify_api_key sha256 pbkdf2 k2 (bytesToHex (sha256 (strEncode k))) = false := by
  have hnd : ∀ c ∈ (bytesToHex (sha256 (strEncode k))).data, c ≠ '$' :=
    bytesToHexChars_no_dollar _
  constructor
  · rw [verify_no_dollar _ _ _ _ hnd]
    simp [bytesToHex]
  · rw [verify_no_dollar _ _ _ _ hnd]
    simp only [bytesToHex]
    rw [beq_eq_false_iff_ne]
    intro hcontra
    exact hne (bytesToHexChars_inj hb2 hb hcontra)

/-- C2 witness: both halves of the legacy-compatibility statement at a
concrete SHA-256 model (the encoded length as a single byte) on the
keys `""` and `"a"`. -/
theorem C2_legacy_compat_witness :
    verify_api_key (fun bs => [bs.length % 256]) (fun _ _ _ => []) ""
      (bytesToHex ((fun bs : List Nat => [bs.length % 256]) (strEncode ""))) = true ∧
    verify_api_key (fun bs => [bs.length % 256]) (fun _ _ _ => []) "a"
      (bytesToHex ((fun bs : List Nat => [bs.length % 256]) (strEncode ""))) = false :=
  C2_legacy_compat _ _ "" "a" (by decide) (by decide) (by decide) (by decide)

/-- C5: Hash definition — `hash_api_key` on salt `s` and key `k` is the
string `hex(s) ++ "$" ++ hex(PBKDF2(k, s, 100000))`; splitting that
string on `'$'` recovers exactly the two hex halves, and decoding the
first half recovers the salt. -/
theorem C5_hash_definition (pbkdf2 : List Nat → List Nat → Nat → List Nat)
    (salt : List Nat) (k : String)
    (hlen : salt.length = 32) (hbytes : ∀ b ∈ salt, b < 256) :
    hash_api_key pbkdf2 salt k
        = bytesToHex salt ++ "$" ++ bytesToHex (pbkdf2 (strEncode k) salt 100000) ∧
    splitDollar (hash_api_key pbkdf2 salt k).data
        = [bytesToHexChars salt, bytesToHexChars (pbkdf2 (strEncode k) salt 100000)] ∧
    bytesFromHex? (bytesToHex salt) = some salt := by
  refine ⟨rfl, ?_, ?_⟩
  · rw [hash_api_key_data, splitDollar_append _ (bytesToHexChars_no_dollar salt),
      splitDollar_no_dollar (bytesToHexChars_no_dollar _)]
  · exact bytesFromHex_bytesToHex hbytes

/-- C5 witness: the hash-definition theorem at a concrete salt, key and
PBKDF2 model. -/
theorem C5_hash_definition_witness :
    hash_api_key (fun _ _ _ => List.replicate 32 1) (List.replicate 32 0) "k"
        = bytesToHex (List.replicate 32 0) ++ "$"
            ++ bytesToHex ((fun _ _ _ => List.replicate 32 1) (strEncode "k")
                  (List.replicate 32 0) 100000) ∧
    splitDollar (hash_api_key (fun _ _ _ => List.replicate 32 1) (List.replicate 32 0) "k").data
        = [bytesToHexChars (List.replicate 32 0),
           bytesToHexChars ((fun _ _ _ => List.replicate 32 1) (strEncode "k")
              (List.replicate 32 0) 100000)] ∧
    bytesFromHex? (bytesToHex (List.replicate 32 0)) = some (List.replicate 32 0) :=
  C5_hash_definition (fun _ _ _ => List.replicate 32 1) (List.replicate 32 0) "k"
    (by decide) (by decide)

/-- C6: Generate postcondition — `generate_api_key` returns the pair of
the URL-safe encoding of the 32 random key bytes and the
`hash_api_key` verifier of that plain key, and that verifier matches
the shape of 64 lowercase hex digits, `'$'`, 64 lowercase hex digits,
provided the PBKDF2 digest is 32 bytes (the native SHA-256 size). -/
theorem C6_generate_postcondition (pbkdf2 : List Nat → List Nat → Nat → List Nat)
    (keyBytes salt : List Nat)
    (hkey : keyBytes.length = 32) (hsalt : salt.length = 32)
    (hdig : (pbkdf2 (strEncode (token_urlsafe keyBytes)) salt 100000).length = 32) :
    (generate_api_key pbkdf2 keyBytes salt).1 = token_urlsafe keyBytes ∧
    (generate_api_key pbkdf2 keyBytes salt).2
        = hash_api_key pbkdf2 salt (token_urlsafe keyBytes) ∧
    matchesStoredShape (generate_api_key pbkdf2 keyBytes salt).2 = true :=
  ⟨rfl, rfl, matchesStoredShape_hash _ _ _ hsalt hdig⟩

/-- C6 witness: the generate postcondition at concrete randomness. -/
theorem C6_generate_postcondition_witness :
    (generate_api_key (fun _ _ _ => List.replicate 32 1) (List.replicate 32 7)
        (List.replicate 32 0)).1 = token_urlsafe (List.replicate 32 7) ∧
    (generate_api_key (fun _ _ _ => List.replicate 32 1) (List.replicate 32 7)
        (List.replicate 32 0)).2
        = hash_api_key (fun _ _ _ => List.replicate 32 1) (List.replicate 32 0)
            (token_urlsafe (List.replicate 32 7)) ∧
    matchesStoredShape (generate_api_key (fun _ _ _ => List.replicate 32 1)
        (List.replicate 32 7) (List.replicate 32 0)).2 = true :=
  C6_generate_postcondition _ _ _ (by decide) (by decide) (by decide)

/-- C8: Salt freshness — two hashes of the same key under distinct
32-byte salts are distinct strings, yet both verify against the key. -/
theorem C8_salt_freshness (sha256 : List Nat → List Nat)
    (pbkdf2 : List Nat → List Nat → Nat → List Nat) (k : String) (s1 s2 : List Nat)
    (h1l : s1.length = 32) (h2l : s2.length = 32)
    (h1 : ∀ b ∈ s1, b < 256) (h2 : ∀ b ∈ s2, b < 256) (hne : s1 ≠ s2) :
    hash_api_key pbkdf2 s1 k ≠ hash_api_key pbkdf2 s2 k ∧
    verify_api_key sha256 pbkdf2 k (hash_api_key pbkdf2 s1 k) = true ∧
    verify_api_key sha256 pbkdf2 k (hash_api_key pbkdf2 s2 k) = true := by
  refine ⟨?_, verify_hash_eq_true _ _ _ _ h1, verify_hash_eq_true _ _ _ _ h2⟩
  intro hcontra
  have hdata := congrArg String.data hcontra
  rw [hash_api_key_data, hash_api_key_data] at hdata
  have hlen : (bytesToHexChars s1).length = (bytesToHexChars s2).length := by
    rw [bytesToHexChars_length, bytesToHexChars_length, h1l, h2l]
  exact hne (bytesToHexChars_inj h1 h2 (List.append_inj hdata hlen).1)

/-- C8 witness: salt freshness at two concrete distinct salts. -/
theorem C8_salt_freshness_witness :
    hash_api_key (fun _ _ _ => List.replicate 32 1) (List.replicate 32 0) "k"
        ≠ hash_api_key (fun _ _ _ => List.replicate 32 1) (3 :: List.replicate 31 0) "k" ∧
    verify_api_key (fun _ => []) (fun _ _ _ => List.replicate 32 1) "k"
      (hash_api_key (fun _ _ _ => List.replicate 32 1) (List.replicate 32 0) "k") = true ∧
    verify_api_key (fun _ => []) (fun _ _ _ => List.replicate 32 1) "k"
      (hash_api_key (fun _ _ _ => List.replicate 32 1) (3 :: List.replicate 31 0) "k") = true :=
  C8_salt_freshness _ _ "k" _ _ (by decide) (by decide) (by decide) (by decide) (by decide)

/-- C10: Empty key accepted — neither `hash_api_key` nor
`verify_api_key` requires a non-empty key: hashing `""` yields a
well-formed current-format verifier and verifying `""` against it
succeeds (the spec restricts `hash` to non-empty input; the code does
not enforce that). -/
theorem C10_empty_key_accepted (sha256 : List Nat → List Nat)
    (pbkdf2 : List Nat → List Nat → Nat → List Nat) (salt : List Nat)
    (hlen : salt.length = 32) (hbytes : ∀ b ∈ salt, b < 256)
    (hdig : (pbkdf2 (strEncode "") salt 100000).length = 32) :
    matchesStoredShape (hash_api_key pbkdf2 salt "") = true ∧
    verify_api_key sha256 pbkdf2 "" (hash_api_key pbkdf2 salt "") = true :=
  ⟨matchesStoredShape_hash _ _ _ hlen hdig, verify_hash_eq_true _ _ _ _ hbytes⟩

/-- C10 witness: the empty-key theorem at a concrete salt and
primitives. -/
theorem C10_empty_key_accepted_witness :
    matchesStoredShape (hash_api_key (fun _ _ _ => List.replicate 32 1)
        (List.replicate 32 0) "") = true ∧
    verify_api_key (fun _ => []) (fun _ _ _ => List.replicate 32 1) ""
      (hash_api_key (fun _ _ _ => List.replicate 32 1) (List.replicate 32 0) "") = true :=
  C10_empty_key_accepted _ _ _ (by decide) (by decide) (by decide)

/-- C3: Totality of verify — `verify_api_key` is a total boolean
function (by construction in this embedding, mirroring the source's
catch of every `ValueError`/`AttributeError`), and it returns `true`
exactly when the stored verifier is a current-format record matching
the key or is the legacy SHA-256 hex of the key; every other stored
string, well-formed or not, yields `false`. -/
theorem C3_verify_total_characterization (sha256 : List Nat → List Nat)
    (pbkdf2 : List Nat → List Nat → Nat → List Nat) (k v : String) :
    verify_api_key sha256 pbkdf2 k v
      = (currentMatch pbkdf2 k v
          || (bytesToHexChars (sha256 (strEncode k)) == v.data)) := by
  unfold verify_api_key currentMatch
  cases hsplit : splitDollar v.data with
  | nil => exact absurd hsplit (splitDollar_ne_nil _)
  | cons p ps =>
    cases ps with
    | nil => simp
    | cons q qs =>
      cases qs with
      | nil =>
        cases hdec : bytesFromHexChars? p with
        | none => simp [hdec]
        | some salt =>
          have hv : v.data = p ++ '$' :: q := splitDollar_eq_pair hsplit
          have hlegfalse :
              (bytesToHexChars (sha256 (strEncode k)) == v.data) = false := by
            rw [hv, beq_eq_false_iff_ne]
            intro hcontra
            have hnd := bytesToHexChars_no_dollar (sha256 (strEncode k))
            rw [hcontra] at hnd
            exact hnd '$' (by simp) rfl
          simp [hlegfalse]
      | cons r rs => simp

/-- C4: Verify dispatch — `verify_api_key` agrees everywhere with
`verify_spec`, the function the spec describes (split on `'$'`; PBKDF2
comparison when both halves are hex; otherwise legacy SHA-256
comparison against the whole string). The one syntactic difference —
the code never hex-decodes the digest half — is invisible: when the
salt half is hex but the digest half is not, both functions return
`false`. -/
theorem C4_verify_matches_spec (sha256 : List Nat → List Nat)
    (pbkdf2 : List Nat → List Nat → Nat → List Nat) (k v : String) :
    verify_api_key sha256 pbkdf2 k v = verify_spec sha256 pbkdf2 k v := by
  unfold verify_api_key verify_spec
  cases hsplit : splitDollar v.data with
  | nil => exact absurd hsplit (splitDollar_ne_nil _)
  | cons p ps =>
    cases ps with
    | nil => rfl
    | cons q qs =>
      cases qs with
      | nil =>
        cases hdec : bytesFromHexChars? p with
        | none => simp [hdec]
        | some salt =>
          cases hdecq : bytesFromHexChars? q with
          | some bsq => simp [hdec, hdecq]
          | none =>
            have hv : v.data = p ++ '$' :: q := splitDollar_eq_pair hsplit
            have hcode :
                (bytesToHexChars (pbkdf2 (strEncode k) salt 100000) == q) = false := by
              rw [beq_eq_false_iff_ne]
              intro hcontra
              have hsome :=
                bytesFromHex_bytesToHex_isSome (pbkdf2 (strEncode k) salt 100000)
              rw [hcontra, hdecq] at hsome
              cases hsome
            have hlegfalse :
                (bytesToHexChars (sha256 (strEncode k)) == v.data) = false := by
              rw [hv, beq_eq_false_iff_ne]
              intro hcontra
              have hnd := bytesToHexChars_no_dollar (sha256 (strEncode k))
              rw [hcontra] at hnd
              exact hnd '$' (by simp) rfl
            simp [hdec, hdecq, hcode, hlegfalse]
      | cons r rs => rfl

/-- C9: No legacy fallback once the salt parses — on a verifier
`s ++ "$" ++ d` with exactly one `'$'` (no `'$'` inside `s` or `d`)
whose salt half decodes as hex, `verify_api_key` returns precisely the
case-sensitive equality of the lowercase PBKDF2 hex digest with `d`:
the result does not depend on the SHA-256 primitive at all (the legacy
comparison is dead in this case), and a non-hex or uppercase digest
half simply compares unequal. -/
theorem C9_no_legacy_once_salt_parses (sha256 : List Nat → List Nat)
    (pbkdf2 : List Nat → List Nat → Nat → List Nat) (k s d : String) (salt : List Nat)
    (hs : ∀ c ∈ s.data, c ≠ '$') (hd : ∀ c ∈ d.data, c ≠ '$')
    (hsalt : bytesFromHex? s = some salt) :
    verify_api_key sha256 pbkdf2 k (s ++ "$" ++ d)
      = (bytesToHexChars (pbkdf2 (strEncode k) salt 100000) == d.data) := by
  unfold verify_api_key
  have h1 : "$".data = ['$'] := rfl
  have hdata : (s ++ "$" ++ d).data = s.data ++ '$' :: d.data := by
    simp [String.data_append, h1]
  unfold bytesFromHex? at hsalt
  rw [hdata, splitDollar_append _ hs, splitDollar_no_dollar hd]
  simp [hsalt]

/-- C9 witness: a verifier with a valid hex salt half and a non-hex
digest half `"ZZ"` is rejected by the PBKDF2 comparison alone. -/
theorem C9_no_legacy_once_salt_parses_witness :
    verify_api_key (fun _ => []) (fun _ _ _ => List.replicate 32 1) "k"
      ("00" ++ "$" ++ "ZZ") = false :=
  (C9_no_legacy_once_salt_parses (fun _ => []) (fun _ _ _ => List.replicate 32 1)
    "k" "00" "ZZ" [0] (by decide) (by decide) (by decide)).trans (by decide)

end ApiKeys
